import Mathlib

/-!
Verification of the pynputter macro interpreter (pynputter.py).

Strings are embedded as lists of characters; Python dictionaries as
insertion-ordered association lists with overwrite-in-place insertion;
fallible Python code (IndexError, TypeError, ValueError) as `Except String`.
Each definition mirrors the identically named Python function or method.
-/

set_option maxHeartbeats 1000000

def exceptDecEq {ε α : Type} [DecidableEq ε] [DecidableEq α] :
    (a b : Except ε α) → Decidable (a = b)
  | .error e, .error f =>
    if h : e = f then isTrue (by rw [h]) else isFalse (by intro c; cases c; exact h rfl)
  | .error _, .ok _ => isFalse (by intro c; cases c)
  | .ok _, .error _ => isFalse (by intro c; cases c)
  | .ok a, .ok b =>
    if h : a = b then isTrue (by rw [h]) else isFalse (by intro c; cases c; exact h rfl)

instance {ε α : Type} [DecidableEq ε] [DecidableEq α] : DecidableEq (Except ε α) :=
  exceptDecEq

namespace Pynputter

/-- Python `str.strip()`: remove whitespace from both ends. -/
def pyStrip (cs : List Char) : List Char :=
  ((cs.dropWhile Char.isWhitespace).reverse.dropWhile Char.isWhitespace).reverse

/-- Python `str.lower()` (ASCII model). -/
def pyLower (cs : List Char) : List Char := cs.map Char.toLower

/-- Python `str.split(sep)` for a one-character separator: `"".split(',') = ['']`,
`",5".split(',') = ['', '5']`. -/
def splitOnChar (c : Char) : List Char → List (List Char)
  | [] => [[]]
  | x :: xs =>
    if x = c then [] :: splitOnChar c xs
    else
      match splitOnChar c xs with
      | r :: rs => (x :: r) :: rs
      | [] => [[x]]

/-- Python `str.split(' + ')`: split on the three-character separator,
scanning left to right, non-overlapping. -/
def splitOnPlus : List Char → List (List Char)
  | ' ' :: '+' :: ' ' :: rest => [] :: splitOnPlus rest
  | x :: xs =>
    match splitOnPlus xs with
    | r :: rs => (x :: r) :: rs
    | [] => [[x]]
  | [] => [[]]

/-- Python `' + ' in line`. -/
def containsPlusSep : List Char → Bool
  | ' ' :: '+' :: ' ' :: _ => true
  | _ :: xs => containsPlusSep xs
  | [] => false

/-- Mirrors `BaseInterpreter._purge`: `line.replace(ch, '')`. -/
def purgeChar (line : List Char) (ch : Char) : List Char :=
  line.filter (fun x => x ≠ ch)

/-- Mirrors `BaseInterpreter._remove_parenthesis`: strip, then drop one leading `(`
and one trailing `)` when present. -/
def removeParenthesis (line : List Char) : List Char :=
  let cleaned := pyStrip line
  let cleaned := if cleaned.head? = some '(' then cleaned.drop 1 else cleaned
  if cleaned.getLast? = some ')' then cleaned.dropLast else cleaned

/-- Mirrors `BaseInterpreter._remove_quotes`: strip; indexing `[0]` of an empty string
raises IndexError; if the first character is a quote, purge that character from
the original (unstripped) text, otherwise return the stripped text. -/
def removeQuotes (text : List Char) : Except String (List Char) :=
  let cleaned := pyStrip text
  match cleaned.head? with
  | none => .error "IndexError"
  | some fc =>
    if fc = '"' ∨ fc = '\'' then .ok (purgeChar text fc)
    else .ok cleaned

/-- Value of a string of decimal digits (Python `int` on an all-digit string). -/
def natOfDigits (cs : List Char) : Nat :=
  cs.foldl (fun n c => 10 * n + (c.toNat - ('0').toNat)) 0

/-- The character-accumulation loop of `BaseInterpreter.clean_number`:
returns the accumulated characters and whether `number_type` ended as float.
The Boolean argument is the current `number_type == 'float'` state. -/
def scanNumber : List Char → Bool → List Char × Bool
  | [], isFloat => ([], isFloat)
  | c :: cs, isFloat =>
    if c = '.' ∧ isFloat = false then
      let r := scanNumber cs true
      (c :: r.1, r.2)
    else if c.isDigit then
      let r := scanNumber cs isFloat
      (c :: r.1, r.2)
    else scanNumber cs isFloat

/-- A Python numeric value as produced by `clean_number`: the `int`/`float`
distinction is kept; a float is represented exactly by its decimal mantissa
and the number of digits after the dot (the parsed strings are finite
decimals, so this is lossless); `toRat` gives its value. -/
inductive PyNumber
  | intVal (n : Nat)
  | floatVal (mant : Nat) (fracDigits : Nat)
deriving DecidableEq, Repr

/-- The exact numeric value of a `PyNumber`. -/
def PyNumber.toRat : PyNumber → ℚ
  | .intVal n => n
  | .floatVal m k => (m : ℚ) / 10 ^ k

/-- Python `int(x)` on a non-negative `PyNumber`: truncation toward zero. -/
def PyNumber.toPyInt : PyNumber → Nat
  | .intVal n => n
  | .floatVal m k => m / 10 ^ k

/-- Model of Python `float(s)` restricted to the strings `clean_number` can
produce (digits with at most one dot): succeeds iff at least one digit is
present, yielding the digit mantissa and the count of digits after the dot;
otherwise ValueError (e.g. `float(".")` raises). -/
def pyFloatOfChars (cs : List Char) : Except String (Nat × Nat) :=
  if cs.any Char.isDigit ∧ cs.all (fun c => c.isDigit ∨ c = '.') ∧ cs.count '.' ≤ 1 then
    .ok (natOfDigits (cs.filter Char.isDigit),
      ((cs.dropWhile (fun c => c ≠ '.')).drop 1).countP Char.isDigit)
  else .error "ValueError"

/-- Mirrors `BaseInterpreter.clean_number` on a list of characters. -/
def cleanNumberList (number : List Char) : Except String (Option PyNumber) :=
  let r := scanNumber number false
  if r.1 = [] then .ok none
  else if r.2 = false then .ok (some (.intVal (natOfDigits r.1)))
  else (pyFloatOfChars r.1).map (fun p => some (.floatVal p.1 p.2))

/-- Mirrors `BaseInterpreter.clean_number` on a string. -/
def clean_number (s : String) : Except String (Option PyNumber) :=
  cleanNumberList s.data

/-! ## Line classification (`InterpreterFactory`) -/

def printKW : List Char := ['p', 'r', 'i', 'n', 't']
def pressKW : List Char := ['p', 'r', 'e', 's', 's']
def pauseKW : List Char := ['p', 'a', 'u', 's', 'e']
def inputKW : List Char := ['i', 'n', 'p', 'u', 't']

inductive LineClass
  | print | press | pause | input | comment | empty
deriving DecidableEq, Repr

/-- Mirrors `InterpreterFactory._set_line_characteristics`: `self.line_start`
(the first 5 characters of the lowercased, stripped line when its length
exceeds 5, else the empty string). -/
def lineStartOf (line : List Char) : List Char :=
  let l := pyStrip (pyLower line)
  if l.length > 5 then l.take 5 else []

/-- Mirrors `InterpreterFactory._set_line_characteristics`: `self.first_character`
(the first character when the length exceeds 5, else the empty string,
modelled as a list of at most one character). -/
def firstCharOf (line : List Char) : List Char :=
  let l := pyStrip (pyLower line)
  if l.length > 5 then l.take 1 else []

/-- Mirrors `InterpreterFactory.__call__`: the dispatch chain choosing an interpreter. -/
def classify (line : List Char) : LineClass :=
  if lineStartOf line = printKW then .print
  else if lineStartOf line = pressKW then .press
  else if lineStartOf line = pauseKW then .pause
  else if lineStartOf line = inputKW then .input
  else if firstCharOf line = ['#'] then .comment
  else .empty

/-! ## Parsed instructions -/

/-- The `keys` slot of a parsed press line: a single name, or the list
produced by splitting on `' + '`. -/
inductive Keys
  | single (k : List Char)
  | chord (ks : List (List Char))
deriving DecidableEq, Repr

/-- A parsed instruction (the list `['print', action, attr?]` and friends that
the interpreters build; `Comment`/`Empty` lines interpret to Python `None`,
modelled as `Option.none` around this type). -/
inductive Instr
  | print (text : List Char) (width : Option PyNumber)
  | press (keys : Keys) (rep : Option PyNumber)
  | pause (secs : Option PyNumber)
  | input (field : List Char) (width : Option PyNumber)
deriving DecidableEq, Repr

/-- Mirrors `BaseInterpreter._new_command` without the press key-splitting: remove
parentheses, split on `,`, clean quotes from the action (IndexError on an
empty action), and run `clean_number` on the attribute when present (the
attribute is appended only when the result is not `None`). -/
def newCommandParts (line : List Char) : Except String (List Char × Option PyNumber) := do
  let line := removeParenthesis line
  let contents := splitOnChar ',' line
  let action ← removeQuotes (contents.headD [])
  let attr ← match contents.get? 1 with
    | some a => cleanNumberList a
    | none => pure none
  pure (action, attr)

/-- Mirrors `PrintInterpreter.interpret`. -/
def interpretPrint (line : List Char) : Except String Instr := do
  let stripped := pyStrip (line.drop 5)
  let parts ← newCommandParts stripped
  pure (.print parts.1 parts.2)

/-- Mirrors `PressInterpreter.interpret`: `is_multiple` is `' + ' in self.line` on the
raw line; a multiple action is split on `' + '` into the chord list. -/
def interpretPress (line : List Char) : Except String Instr := do
  let stripped := pyStrip (line.drop 5)
  let parts ← newCommandParts stripped
  let keys := if containsPlusSep line then Keys.chord (splitOnPlus parts.1)
    else Keys.single parts.1
  pure (.press keys parts.2)

/-- Mirrors `PauseInterpreter.interpret`: empty remainder gives the `int` 1, otherwise
the `clean_number` result (possibly Python `None`) is appended. -/
def interpretPause (line : List Char) : Except String Instr := do
  let cleaned := pyStrip (removeParenthesis (pyStrip (line.drop 5)))
  if cleaned = [] then pure (.pause (some (.intVal 1)))
  else do
    let n ← cleanNumberList cleaned
    pure (.pause n)

/-- Mirrors `InputInterpreter.interpret`. -/
def interpretInput (line : List Char) : Except String Instr := do
  let stripped := pyStrip (line.drop 5)
  let parts ← newCommandParts stripped
  pure (.input parts.1 parts.2)

/-- One line of `ProcedureFromText._interpret_text`: choose the interpreter by
classification and run it; comment and empty interpreters return `None`. -/
def interpretLineList (line : List Char) : Except String (Option Instr) :=
  match classify line with
  | .print => (interpretPrint line).map some
  | .press => (interpretPress line).map some
  | .pause => (interpretPause line).map some
  | .input => (interpretInput line).map some
  | .comment => .ok none
  | .empty => .ok none

/-- Line interpretation on a string. -/
def interpretLine (s : String) : Except String (Option Instr) :=
  interpretLineList s.data

/-! ## Data table loader (`DataFromList`) -/

/-- Python `list[i]`: IndexError when out of bounds. -/
def pyGet {α : Type} (l : List α) (i : Nat) : Except String α :=
  match l.get? i with
  | some x => .ok x
  | none => .error "IndexError"

/-- Lookup in an insertion-ordered dictionary (`d[k]` / `d.get(k)`);
keys are unique by construction, so the first match is the entry. -/
def dictGet {α β : Type} [DecidableEq α] (d : List (α × β)) (k : α) : Option β :=
  (d.find? (fun p => p.1 = k)).map (fun p => p.2)

/-- Python `d[k] = v`: overwrite in place when the key exists, else append. -/
def dictInsert {α β : Type} [DecidableEq α] (d : List (α × β)) (k : α) (v : β) :
    List (α × β) :=
  if (d.find? (fun p => p.1 = k)).isSome then
    d.map (fun p => if p.1 = k then (p.1, v) else p)
  else d ++ [(k, v)]

/-- The inner loop of `DataFromList._read_all_column_values_except_the_keys`:
build `temp_dict` over the given column indices (`range(1, width)`),
indexing `headers[column]` and `row[column]`. -/
def readRecordCols {α : Type} [DecidableEq α] (headers row : List α) :
    List Nat → List (α × α) → Except String (List (α × α))
  | [], d => .ok d
  | c :: cs, d => do
    let h ← pyGet headers c
    let v ← pyGet row c
    readRecordCols headers row cs (dictInsert d h v)

/-- Mirrors `DataFromList.return_data_set`: headers are all columns of row 0
(`_set_headers` with `width = len(data_list[0])`); each later row (the index
loop `range(1, height)` visits exactly `data_list[1:]`) contributes the entry
`key = row[0] ↦ {headers[c]: row[c] for c in range(1, width)}`. -/
def dataFromList {α : Type} [DecidableEq α] (table : List (List α)) :
    Except String (List (α × List (α × α))) := do
  let headers ← pyGet table 0
  let width := headers.length
  (table.drop 1).foldlM (fun d row => do
    let key ← pyGet row 0
    let record ← readRecordCols headers row (List.range' 1 (width - 1)) []
    pure (dictInsert d key record)) []

/-! ## Commands -/

/-- A record bound to one run of the procedure: field name to value. -/
abbrev Record : Type := List (List Char × List Char)

/-- The injection events a command performs when executed
(`pyautogui.typewrite`, `pyautogui.press`, `pyautogui.hotkey`, `sleep(1)`). -/
inductive Event
  | typeText (s : List Char)
  | pressKey (k : List Char)
  | hotkey (ks : List (List Char))
  | sleepSec
deriving DecidableEq, Repr

/-- A fully constructed command object. `typeField` covers `PrintCommand` and
`InputCommand` after construction: the resolved `value_to_print` (Python
`None` for a missing input field, hence the `Option`) and the `has_tab` flag. -/
inductive Command
  | typeField (valueToPrint : Option (List Char)) (hasTab : Bool)
  | pressC (keys : Keys) (presses : Nat)
  | pauseC (len : Nat)
  | unknown
deriving DecidableEq, Repr

/-- Mirrors `TypeField._set_field` on a (present) string value: `value_to_print` and
`has_tab`. -/
def set_field (value : List Char) (length : Option Nat) : List Char × Bool :=
  match length with
  | some l =>
    if value.length < l then (value, true)
    else if value.length > l then (value.take l, false)
    else (value, false)
  | none => (value, false)

/-- Mirrors `TypeField` construction (`_set_length` then `_set_field`): the width slot
is `int(instruction[2])` when present; `len(value)` with a Python `None`
value raises TypeError; with no width the value (even `None`) is kept and
`has_tab` stays false. -/
def typeFieldInit (value : Option (List Char)) (width : Option PyNumber) :
    Except String Command :=
  match width.map PyNumber.toPyInt, value with
  | some _, none => .error "TypeError"
  | some l, some v => .ok (.typeField (some (set_field v (some l)).1) (set_field v (some l)).2)
  | none, v => .ok (.typeField v false)

/-- Mirrors `PrintCommand.__init__`: the value is `instruction[1]`, always present. -/
def printCommandMake (text : List Char) (width : Option PyNumber) :
    Except String Command :=
  typeFieldInit (some text) width

/-- Mirrors `InputCommand.__init__`: the value is `self.data_set.get(instruction[1])`. -/
def inputCommandMake (field : List Char) (width : Option PyNumber)
    (record : Record) : Except String Command :=
  typeFieldInit (dictGet record field) width

/-- Mirrors `PressCommand.__init__`: `presses = int(instruction[2])` when the list has
three slots, else 1. -/
def pressCommandMake (keys : Keys) (rep : Option PyNumber) : Command :=
  .pressC keys (match rep with | some v => v.toPyInt | none => 1)

/-- Mirrors `PauseCommand.set_pause`: `int(instruction[1])`; a parsed Python `None`
duration raises TypeError. -/
def pauseCommandMake (secs : Option PyNumber) : Except String Command :=
  match secs with
  | none => .error "TypeError"
  | some v => .ok (.pauseC v.toPyInt)

/-- One iteration of `PressCommand.execute`: the `elif` chain on the keys.
Each `self.keys[i]` access is modelled by `pyGet`; note the 4-key branch
accesses indices 0, 1, 2 and 4. -/
def pressOnce (keys : Keys) : Except String (List Event) :=
  match keys with
  | .single k => .ok [.pressKey k]
  | .chord ks =>
    if ks.length = 2 then do
      let a ← pyGet ks 0; let b ← pyGet ks 1
      pure [.hotkey [a, b]]
    else if ks.length = 3 then do
      let a ← pyGet ks 0; let b ← pyGet ks 1; let c ← pyGet ks 2
      pure [.hotkey [a, b, c]]
    else if ks.length = 4 then do
      let a ← pyGet ks 0; let b ← pyGet ks 1; let c ← pyGet ks 2
      let d ← pyGet ks 4
      pure [.hotkey [a, b, c, d]]
    else if ks.length = 5 then do
      let a ← pyGet ks 0; let b ← pyGet ks 1; let c ← pyGet ks 2
      let d ← pyGet ks 3; let e ← pyGet ks 4
      pure [.hotkey [a, b, c, d, e]]
    else pure []

/-- Mirrors `PressCommand.execute`: the repeat loop. -/
def pressExecute (keys : Keys) (n : Nat) : Except String (List Event) :=
  (List.range n).foldlM (fun acc _ => do
    let es ← pressOnce keys
    pure (acc ++ es)) []

/-- The `execute` of each command. Typing a Python `None` value
(`pyautogui.typewrite(None)`) raises TypeError. -/
def Command.execute : Command → Except String (List Event)
  | .typeField none _ => .error "TypeError"
  | .typeField (some v) tab =>
    .ok ([Event.typeText v] ++ if tab then [Event.pressKey ['t', 'a', 'b']] else [])
  | .pressC keys n => pressExecute keys n
  | .pauseC n => .ok (List.replicate n Event.sleepSec)
  | .unknown => .ok []

/-- Mirrors `CommandFactory.__call__`: the dispatch chain (`input` requires bound
data; otherwise the line falls through to `UnknownCommand`). -/
def commandFactory : Instr → Option Record → Except String Command
  | .input f w, some record => inputCommandMake f w record
  | .press k r, _ => .ok (pressCommandMake k r)
  | .print t w, _ => printCommandMake t w
  | .pause s, _ => pauseCommandMake s
  | .input _ _, none => .ok .unknown

/-! ## Procedure builder -/

/-- Mirrors `ProcedureBuilder._build_procedure_for_each_action`: walk the procedure in
source order, skipping `None` rows, resolving each row against the bound
record. -/
def buildPass : List (Option Instr) → Option Record → Except String (List Command)
  | [], _ => .ok []
  | none :: rest, r => buildPass rest r
  | some i :: rest, r => do
    let c ← commandFactory i r
    let cs ← buildPass rest r
    pure (c :: cs)

/-- Mirrors `ProcedureBuilder.build_procedure_set`: one pass with no record when there
is no data set, otherwise one pass per record in stored order, appending. -/
def buildProcedureSet (procedure : List (Option Instr))
    (dataSet : Option (List (List Char × Record))) : Except String (List Command) :=
  match dataSet with
  | none => buildPass procedure none
  | some rows => rows.foldlM (fun acc kr => do
      let cs ← buildPass procedure (some kr.2)
      pure (acc ++ cs)) []

/-! ## Specification-side definitions (for refinement statements) -/

/-- The Numeric Extractor as the specification words it: the result is the
number formed by the string's digit characters in order together with its
first `.` — a float whose mantissa is all the digits and whose fractional
part is the digits after that first dot — or an int of the digits when the
string has no dot. Stated independently of `scanNumber` by splitting the
string at its first dot. -/
def extractSpec (s : String) : PyNumber :=
  let cs := s.data
  if '.' ∈ cs then
    .floatVal
      (natOfDigits (((cs.takeWhile (fun c => c ≠ '.')) ++
        ((cs.dropWhile (fun c => c ≠ '.')).drop 1)).filter Char.isDigit))
      (((cs.dropWhile (fun c => c ≠ '.')).drop 1).countP Char.isDigit)
  else .intVal (natOfDigits (cs.filter Char.isDigit))

/-- The trimmed action slot of a keyword line: first comma-field of the
parenthesis-stripped remainder. `_remove_quotes` raises IndexError exactly
when this is empty. -/
def actionCandidate (line : List Char) : List Char :=
  pyStrip ((splitOnChar ',' (removeParenthesis (pyStrip (line.drop 5)))).headD [])

/-- The attribute slot of a keyword line (second comma-field), when present. -/
def attrCandidate (line : List Char) : Option (List Char) :=
  (splitOnChar ',' (removeParenthesis (pyStrip (line.drop 5)))).get? 1

/-- The cleaned duration text of a pause line. -/
def pauseCandidate (line : List Char) : List Char :=
  pyStrip (removeParenthesis (pyStrip (line.drop 5)))

end Pynputter

namespace Pynputter

/-! ## Helper lemmas -/

/-- In float mode the scan keeps exactly the digit characters. -/
theorem scanNumber_float (cs : List Char) :
    scanNumber cs true = (cs.filter Char.isDigit, true) := by
  induction cs with
  | nil => rfl
  | cons c cs ih =>
    by_cases hd : c.isDigit
    · simp [scanNumber, hd, ih]
    · simp [scanNumber, hd, ih]

/-- With no dot in the input, the scan stays in int mode and keeps exactly
the digit characters. -/
theorem scanNumber_no_dot (cs : List Char) (h : '.' ∉ cs) :
    scanNumber cs false = (cs.filter Char.isDigit, false) := by
  induction cs with
  | nil => rfl
  | cons c cs ih =>
    have hc : c ≠ '.' := fun e => h (e ▸ List.mem_cons_self c cs)
    have h' : '.' ∉ cs := fun m => h (List.mem_cons_of_mem c m)
    by_cases hd : c.isDigit
    · simp [scanNumber, hc, hd, ih h']
    · simp [scanNumber, hc, hd, ih h']

/-- A list containing a dot splits as prefix-before-first-dot, the dot, and
the remainder; the prefix holds no dot. -/
theorem dot_split (cs : List Char) (h : '.' ∈ cs) :
    cs = cs.takeWhile (fun c => c ≠ '.') ++
      '.' :: (cs.dropWhile (fun c => c ≠ '.')).drop 1
    ∧ '.' ∉ cs.takeWhile (fun c => c ≠ '.') := by
  induction cs with
  | nil => cases h
  | cons c cs ih =>
    by_cases hc : c = '.'
    · subst hc
      constructor
      · simp
      · simp
    · have h' : '.' ∈ cs := (List.mem_cons.mp h).resolve_left (fun e => hc e.symm)
      obtain ⟨e1, e2⟩ := ih h'
      constructor
      · simpa [List.takeWhile_cons, List.dropWhile_cons, hc] using
          congrArg (fun l => c :: l) e1
      · intro hm
        rw [List.takeWhile_cons, if_pos (by simp [hc])] at hm
        rcases List.mem_cons.mp hm with e | hm2
        · exact hc e.symm
        · exact e2 hm2

/-- With a dot in the input, the scan keeps the digits before the first dot,
the dot itself, and the digits after it, ending in float mode. -/
theorem scanNumber_dot (cs : List Char) (h : '.' ∈ cs) :
    scanNumber cs false =
      ((cs.takeWhile (fun c => c ≠ '.')).filter Char.isDigit ++
        '.' :: ((cs.dropWhile (fun c => c ≠ '.')).drop 1).filter Char.isDigit,
        true) := by
  induction cs with
  | nil => cases h
  | cons c cs ih =>
    by_cases hc : c = '.'
    · subst hc
      simp [scanNumber, scanNumber_float]
    · have h' : '.' ∈ cs := (List.mem_cons.mp h).resolve_left (fun e => hc e.symm)
      by_cases hd : c.isDigit
      · simp [scanNumber, hc, hd, ih h', List.takeWhile_cons, List.dropWhile_cons]
      · simp [scanNumber, hc, hd, ih h', List.takeWhile_cons, List.dropWhile_cons]

/-- A digit character is not the dot. -/
theorem digit_ne_dot (c : Char) (h : c.isDigit = true) : c ≠ '.' := by
  intro e; subst e; cases h

/-- Dropping while a predicate holds skips a prefix it holds on. -/
theorem dropWhile_append_all {α : Type} (p : α → Bool) (l1 l2 : List α)
    (h : ∀ x ∈ l1, p x = true) :
    (l1 ++ l2).dropWhile p = l2.dropWhile p := by
  induction l1 with
  | nil => rfl
  | cons a l1 ih =>
    rw [List.cons_append, List.dropWhile_cons,
      if_pos (h a (List.mem_cons_self a l1))]
    exact ih (fun x hx => h x (List.mem_cons_of_mem a hx))

/-- The method `_remove_quotes` succeeds exactly when the stripped text is nonempty. -/
theorem removeQuotes_ok_iff (t : List Char) :
    (∃ x, removeQuotes t = .ok x) ↔ pyStrip t ≠ [] := by
  cases hh : (pyStrip t).head? with
  | none =>
    have he : pyStrip t = [] := List.head?_eq_none_iff.mp hh
    simp [removeQuotes, hh, he]
  | some fc =>
    have hne : pyStrip t ≠ [] := by
      intro e; rw [e] at hh; cases hh
    by_cases hq : fc = '"' ∨ fc = '\''
    · simp [removeQuotes, hh, hq, hne]
    · simp [removeQuotes, hh, hq, hne]

/-- Mapping an `Except` has an `ok` value iff the original does. -/
theorem exists_map_ok {α β : Type} (f : α → β) (x : Except String α) :
    (∃ b, x.map f = .ok b) ↔ (∃ a, x = .ok a) := by
  cases x <;> simp [Except.map]

/-- The method `_new_command` succeeds exactly when the trimmed action slot is nonempty
and the attribute slot, when present, does not make `clean_number` raise. -/
theorem newCommandParts_ok_iff (l : List Char) :
    (∃ p, newCommandParts l = .ok p) ↔
      (pyStrip ((splitOnChar ',' (removeParenthesis l)).headD []) ≠ [] ∧
       ¬ ∃ a e, (splitOnChar ',' (removeParenthesis l)).get? 1 = some a ∧
         cleanNumberList a = .error e) := by
  cases hq : removeQuotes ((splitOnChar ',' (removeParenthesis l)).headD []) with
  | error e =>
    have hval : newCommandParts l = .error e := by
      simp only [newCommandParts, bind, Except.bind, hq]
    have hstrip : pyStrip ((splitOnChar ',' (removeParenthesis l)).headD []) = [] := by
      by_contra hne
      obtain ⟨x, hx⟩ := (removeQuotes_ok_iff _).mpr hne
      rw [hq] at hx
      cases hx
    constructor
    · rintro ⟨p, hp⟩
      rw [hval] at hp
      cases hp
    · rintro ⟨h1, _⟩
      exact absurd hstrip h1
  | ok a =>
    have hstrip := (removeQuotes_ok_iff
      ((splitOnChar ',' (removeParenthesis l)).headD [])).mp ⟨a, hq⟩
    cases hatt : (splitOnChar ',' (removeParenthesis l)).get? 1 with
    | none =>
      have hval : newCommandParts l = .ok (a, none) := by
        simp only [newCommandParts, bind, Except.bind, pure, Except.pure, hq, hatt]
      constructor
      · intro _
        refine ⟨hstrip, ?_⟩
        rintro ⟨a', e, ha', _⟩
        cases ha'
      · intro _
        exact ⟨(a, none), hval⟩
    | some att =>
      cases hcn : cleanNumberList att with
      | ok n =>
        have hval : newCommandParts l = .ok (a, n) := by
          simp only [newCommandParts, bind, Except.bind, pure, Except.pure, hq, hatt, hcn]
        constructor
        · intro _
          refine ⟨hstrip, ?_⟩
          rintro ⟨a', e, ha', he'⟩
          injection ha' with hh
          subst hh
          rw [hcn] at he'
          cases he'
        · intro _
          exact ⟨(a, n), hval⟩
      | error e =>
        have hval : newCommandParts l = .error e := by
          simp only [newCommandParts, bind, Except.bind, hq, hatt, hcn]
        constructor
        · rintro ⟨p, hp⟩
          rw [hval] at hp
          cases hp
        · rintro ⟨_, h2⟩
          exact absurd ⟨att, e, rfl, hcn⟩ h2

/-- Expresses `PrintInterpreter.interpret` as a map over `_new_command`. -/
theorem interpretPrint_eq (line : List Char) :
    interpretPrint line = (newCommandParts (pyStrip (line.drop 5))).map
      (fun p => .print p.1 p.2) := by
  cases h : newCommandParts (pyStrip (line.drop 5)) <;>
    simp [interpretPrint, bind, Except.bind, pure, Except.pure, Except.map, h]

/-- Expresses `PressInterpreter.interpret` as a map over `_new_command`. -/
theorem interpretPress_eq (line : List Char) :
    interpretPress line = (newCommandParts (pyStrip (line.drop 5))).map
      (fun p => .press (if containsPlusSep line then Keys.chord (splitOnPlus p.1)
        else Keys.single p.1) p.2) := by
  cases h : newCommandParts (pyStrip (line.drop 5)) <;>
    simp [interpretPress, bind, Except.bind, pure, Except.pure, Except.map, h]

/-- Expresses `InputInterpreter.interpret` as a map over `_new_command`. -/
theorem interpretInput_eq (line : List Char) :
    interpretInput line = (newCommandParts (pyStrip (line.drop 5))).map
      (fun p => .input p.1 p.2) := by
  cases h : newCommandParts (pyStrip (line.drop 5)) <;>
    simp [interpretInput, bind, Except.bind, pure, Except.pure, Except.map, h]

/-- Expresses `PauseInterpreter.interpret` as a map over `clean_number`. -/
theorem interpretPause_eq (line : List Char) :
    interpretPause line = (if pauseCandidate line = [] then .ok (.pause (some (.intVal 1)))
      else (cleanNumberList (pauseCandidate line)).map (fun n => .pause n)) := by
  by_cases hc : pauseCandidate line = []
  · simp only [interpretPause, pauseCandidate] at hc ⊢
    simp [hc, pure, Except.pure]
  · simp only [interpretPause, pauseCandidate] at hc ⊢
    rw [if_neg hc, if_neg hc]
    cases h : cleanNumberList (pyStrip (removeParenthesis (pyStrip (line.drop 5)))) <;>
      simp [bind, Except.bind, pure, Except.pure, Except.map, h]

/-- A successful pass yields one command per non-`None` instruction. -/
theorem buildPass_length : ∀ (proc : List (Option Instr)) (r : Option Record)
    (cs : List Command), buildPass proc r = .ok cs →
    cs.length = (proc.filterMap id).length := by
  intro proc
  induction proc with
  | nil =>
    intro r cs h
    injection h with h'
    subst h'
    simp
  | cons o rest ih =>
    intro r cs h
    cases o with
    | none =>
      simp only [buildPass] at h
      simpa using ih r cs h
    | some i =>
      simp only [buildPass, bind, Except.bind] at h
      cases hcf : commandFactory i r with
      | error e =>
        rw [hcf] at h
        cases h
      | ok c =>
        rw [hcf] at h
        cases hbp : buildPass rest r with
        | error e =>
          rw [hbp] at h
          cases h
        | ok cs' =>
          rw [hbp] at h
          simp only [pure, Except.pure] at h
          injection h with h'
          subst h'
          simp [List.filterMap_cons, ih r cs' hbp]

/-- Rows that are `None` contribute nothing to a pass. -/
theorem buildPass_skip_none : ∀ (proc : List (Option Instr)) (r : Option Record),
    buildPass proc r = buildPass ((proc.filterMap id).map some) r := by
  intro proc
  induction proc with
  | nil => intro r; rfl
  | cons o rest ih =>
    intro r
    cases o with
    | none =>
      simp only [buildPass, List.filterMap_cons]
      exact ih r
    | some i =>
      simp only [buildPass, List.filterMap_cons, List.map_cons]
      rw [ih r]

/-- The record loop of the builder: a successful fold is the concatenation of
one successful pass per record, in stored record order. -/
theorem buildFold (procedure : List (Option Instr)) :
    ∀ (rows : List (List Char × Record)) (acc pset : List Command),
      rows.foldlM (fun acc kr => do
        let cs ← buildPass procedure (some kr.2)
        pure (acc ++ cs)) acc = .ok pset →
      ∃ passes : List (List Command),
        passes.length = rows.length ∧
        pset = acc ++ passes.flatten ∧
        ∀ i (hi : i < rows.length) (hp : i < passes.length),
          buildPass procedure (some ((rows.get ⟨i, hi⟩).2)) = .ok (passes.get ⟨i, hp⟩) := by
  intro rows
  induction rows with
  | nil =>
    intro acc pset h
    simp only [List.foldlM_nil, pure, Except.pure] at h
    injection h with h'
    subst h'
    refine ⟨[], rfl, by simp, ?_⟩
    intro i hi _
    exact absurd hi (Nat.not_lt_zero i)
  | cons kr rest ih =>
    intro acc pset h
    rw [List.foldlM_cons] at h
    cases hb : buildPass procedure (some kr.2) with
    | error e =>
      simp only [bind, Except.bind, hb] at h
      cases h
    | ok p =>
      simp only [bind, Except.bind, hb, pure, Except.pure] at h
      obtain ⟨passes, hlen, heq, helem⟩ := ih (acc ++ p) pset h
      refine ⟨p :: passes, by simp [hlen], ?_, ?_⟩
      · rw [heq]
        simp [List.append_assoc]
      · intro i hi hp
        cases i with
        | zero => simpa using hb
        | succ n =>
          exact helem n (Nat.lt_of_succ_lt_succ hi) (Nat.lt_of_succ_lt_succ hp)

/-- The total length of equally long sublists. -/
theorem sum_const_lengths (m : Nat) : ∀ L : List (List Command),
    (∀ p ∈ L, p.length = m) → (L.map List.length).sum = L.length * m := by
  intro L
  induction L with
  | nil => simp
  | cons p ps ih =>
    intro h
    simp only [List.map_cons, List.sum_cons, List.length_cons]
    rw [h p (List.mem_cons_self p ps), ih (fun q hq => h q (List.mem_cons_of_mem p hq))]
    ring

/-- The accessor `pyGet` succeeds on an in-bounds index. -/
theorem pyGet_ok {α : Type} (l : List α) (i : Nat) (h : i < l.length) :
    pyGet l i = .ok (l.get ⟨i, h⟩) := by
  rw [pyGet, List.get?_eq_get h]

/-- Running `find?` on a key commutes with a map that preserves first components. -/
theorem find_map_fst_preserving {α β : Type} [DecidableEq α]
    (f : α × β → α × β) (hf : ∀ p, (f p).1 = p.1) (k : α) :
    ∀ d : List (α × β), (d.map f).find? (fun p => p.1 = k) =
      (d.find? (fun p => p.1 = k)).map f := by
  intro d
  induction d with
  | nil => rfl
  | cons p ps ih =>
    by_cases hp : p.1 = k
    · rw [List.map_cons, List.find?_cons_of_pos _ (by simp [hf, hp]),
        List.find?_cons_of_pos _ (by simp [hp])]
      rfl
    · rw [List.map_cons, List.find?_cons_of_neg _ (by simp [hf, hp]),
        List.find?_cons_of_neg _ (by simp [hp]), ih]

/-- Looking up the key just inserted yields the inserted value. -/
theorem dictGet_insert_self {α β : Type} [DecidableEq α]
    (d : List (α × β)) (k : α) (v : β) :
    dictGet (dictInsert d k v) k = some v := by
  rw [dictInsert]
  by_cases hs : (d.find? (fun p => p.1 = k)).isSome
  · rw [if_pos hs, dictGet, find_map_fst_preserving
      (fun p => if p.1 = k then (p.1, v) else p)
      (by intro p; by_cases h : p.1 = k <;> simp [h]) k]
    obtain ⟨q, hq⟩ := Option.isSome_iff_exists.mp hs
    rw [hq]
    have hq1 : q.1 = k := by simpa using List.find?_some hq
    simp [hq1]
  · rw [if_neg hs, dictGet]
    have hnone : d.find? (fun p => p.1 = k) = none :=
      Option.not_isSome_iff_eq_none.mp hs
    rw [List.find?_append, hnone]
    simp

/-- Inserting under one key leaves lookups of other keys unchanged. -/
theorem dictGet_insert_other {α β : Type} [DecidableEq α]
    (d : List (α × β)) (k k' : α) (v : β) (h : k' ≠ k) :
    dictGet (dictInsert d k v) k' = dictGet d k' := by
  rw [dictInsert]
  by_cases hs : (d.find? (fun p => p.1 = k)).isSome
  · rw [if_pos hs, dictGet, dictGet, find_map_fst_preserving
      (fun p => if p.1 = k then (p.1, v) else p)
      (by intro p; by_cases hh : p.1 = k <;> simp [hh]) k']
    cases hf : d.find? (fun p => p.1 = k') with
    | none => rfl
    | some q =>
      have hq1 : q.1 = k' := by simpa using List.find?_some hf
      have hqk : ¬ q.1 = k := by rw [hq1]; exact h
      simp [hqk]
  · rw [if_neg hs, dictGet, dictGet, List.find?_append]
    have hkk : (decide (k = k')) = false := decide_eq_false (fun e => h e.symm)
    have : ([(k, v)].find? (fun p => p.1 = k')) = none := by
      simp only [List.find?, hkk]
    rw [this]
    simp

/-- Building a record over in-bounds column indices always succeeds. -/
theorem readRecordCols_total {α : Type} [DecidableEq α] (headers row : List α) :
    ∀ (cols : List Nat) (d : List (α × α)),
      (∀ c ∈ cols, c < headers.length ∧ c < row.length) →
      ∃ drec, readRecordCols headers row cols d = .ok drec := by
  intro cols
  induction cols with
  | nil => intro d _; exact ⟨d, rfl⟩
  | cons c cs ih =>
    intro d hb
    obtain ⟨hch, hcr⟩ := hb c (List.mem_cons_self c cs)
    obtain ⟨drec, hd⟩ := ih
      (dictInsert d (headers.get ⟨c, hch⟩) (row.get ⟨c, hcr⟩))
      (fun x hx => hb x (List.mem_cons_of_mem c hx))
    refine ⟨drec, ?_⟩
    simp only [readRecordCols, bind, Except.bind, pyGet_ok headers c hch,
      pyGet_ok row c hcr]
    exact hd

/-- With distinct headers, the built record maps `headers[j]` to `row[j]`
for every processed column `j` (and preserves entries for untouched keys
already holding the right value). -/
theorem readRecordCols_lookup {α : Type} [DecidableEq α] (headers row : List α)
    (hnd : headers.Nodup) :
    ∀ (cols : List Nat) (d : List (α × α)) (j : Nat) (hj : j < headers.length)
      (hjr : j < row.length),
      (∀ c ∈ cols, c < headers.length ∧ c < row.length) →
      (dictGet d (headers.get ⟨j, hj⟩) = some (row.get ⟨j, hjr⟩) ∨ j ∈ cols) →
      ∀ drec, readRecordCols headers row cols d = .ok drec →
        dictGet drec (headers.get ⟨j, hj⟩) = some (row.get ⟨j, hjr⟩) := by
  intro cols
  induction cols with
  | nil =>
    intro d j hj hjr _ hstart drec hrun
    injection hrun with h'
    subst h'
    rcases hstart with h | h
    · exact h
    · exact absurd h (List.not_mem_nil j)
  | cons c cs ih =>
    intro d j hj hjr hb hstart drec hrun
    obtain ⟨hch, hcr⟩ := hb c (List.mem_cons_self c cs)
    simp only [readRecordCols, bind, Except.bind, pyGet_ok headers c hch,
      pyGet_ok row c hcr] at hrun
    refine ih (dictInsert d (headers.get ⟨c, hch⟩) (row.get ⟨c, hcr⟩)) j hj hjr
      (fun x hx => hb x (List.mem_cons_of_mem c hx)) ?_ drec hrun
    by_cases hc : c = j
    · subst hc
      left
      exact dictGet_insert_self d (headers.get ⟨c, hch⟩) (row.get ⟨c, hcr⟩)
    · rcases hstart with h | h
      · left
        rw [dictGet_insert_other]
        · exact h
        · intro he
          have := List.nodup_iff_injective_get.mp hnd he
          have hje : j = c := by
            have := Fin.mk.inj_iff.mp this
            exact this
          exact hc hje.symm
      · rcases List.mem_cons.mp h with h' | h'
        · exact absurd h'.symm hc
        · exact Or.inr h'

/-- The row loop of `DataFromList`: with equal-arity rows the fold succeeds;
keys absent from all rows keep their prior binding; every row whose key does
not recur in a later row ends bound to its own record, which maps
`headers[j]` to `row[j]` for the data columns. -/
theorem tableFold (headers : List String) (hnd : headers.Nodup)
    (h0 : 0 < headers.length) :
    ∀ (rows : List (List String)) (d : List (String × List (String × String))),
      (∀ r ∈ rows, r.length = headers.length) →
      ∃ dfin, rows.foldlM (fun d row => do
          let key ← pyGet row 0
          let record ← readRecordCols headers row
            (List.range' 1 (headers.length - 1)) []
          pure (dictInsert d key record)) d = .ok dfin ∧
        (∀ k : String, (∀ r ∈ rows, r.head? ≠ some k) →
          dictGet dfin k = dictGet d k) ∧
        (∀ i (hi : i < rows.length),
          (∀ i' (hi' : i' < rows.length), i < i' →
            (rows.get ⟨i', hi'⟩).head? ≠ (rows.get ⟨i, hi⟩).head?) →
          ∃ key record, (rows.get ⟨i, hi⟩).head? = some key ∧
            dictGet dfin key = some record ∧
            ∀ j (hj : j < headers.length) (hjr : j < (rows.get ⟨i, hi⟩).length),
              1 ≤ j → dictGet record (headers.get ⟨j, hj⟩) =
                some ((rows.get ⟨i, hi⟩).get ⟨j, hjr⟩)) := by
  intro rows
  induction rows with
  | nil =>
    intro d _
    refine ⟨d, by simp [pure, Except.pure], fun k _ => rfl, ?_⟩
    intro i hi
    exact absurd hi (Nat.not_lt_zero i)
  | cons row rest ih =>
    intro d hlen
    have hrowlen : row.length = headers.length :=
      hlen row (List.mem_cons_self row rest)
    have hr0 : 0 < row.length := by rw [hrowlen]; exact h0
    have hcols : ∀ c ∈ List.range' 1 (headers.length - 1),
        c < headers.length ∧ c < row.length := by
      intro c hc
      obtain ⟨h1, h2⟩ := List.mem_range'_1.mp hc
      have hcw : c < headers.length := by omega
      exact ⟨hcw, by rw [hrowlen]; exact hcw⟩
    obtain ⟨record, hrec⟩ := readRecordCols_total headers row
      (List.range' 1 (headers.length - 1)) [] hcols
    have hkey : row.head? = some (row.get ⟨0, hr0⟩) := by
      rw [← List.get?_zero, List.get?_eq_get hr0]
    obtain ⟨dfin, hfold, hpres, hrows⟩ := ih
      (dictInsert d (row.get ⟨0, hr0⟩) record)
      (fun r hr => hlen r (List.mem_cons_of_mem row hr))
    refine ⟨dfin, ?_, ?_, ?_⟩
    · rw [List.foldlM_cons]
      simp only [bind, Except.bind, pyGet_ok row 0 hr0, hrec, pure, Except.pure]
      exact hfold
    · intro k hk
      have hne : row.get ⟨0, hr0⟩ ≠ k := by
        intro e
        exact hk row (List.mem_cons_self row rest) (by rw [hkey, e])
      rw [hpres k (fun r hr => hk r (List.mem_cons_of_mem row hr)),
        dictGet_insert_other d _ k record (fun e => hne e.symm)]
    · intro i hi hcond
      cases i with
      | zero =>
        have hnolater : ∀ r ∈ rest, r.head? ≠ some (row.get ⟨0, hr0⟩) := by
          intro r hr he
          obtain ⟨⟨m, hm⟩, hgm⟩ := List.mem_iff_get.mp hr
          have := hcond (m + 1) (by simpa using Nat.succ_lt_succ hm)
            (Nat.succ_pos m)
          apply this
          show (rest.get ⟨m, hm⟩).head? = row.head?
          rw [hgm, he, hkey]
        refine ⟨row.get ⟨0, hr0⟩, record, hkey, ?_, ?_⟩
        · rw [hpres _ hnolater]
          exact dictGet_insert_self d _ record
        · intro j hj hjr hj1
          exact readRecordCols_lookup headers row hnd
            (List.range' 1 (headers.length - 1)) [] j hj hjr hcols
            (Or.inr (List.mem_range'_1.mpr ⟨hj1, by omega⟩)) record hrec
      | succ n =>
        have hn : n < rest.length := Nat.lt_of_succ_lt_succ hi
        exact hrows n hn (fun i' hi' hlt =>
          hcond (i' + 1) (by simpa using Nat.succ_lt_succ hi')
            (Nat.succ_lt_succ hlt))

/-! ## Claim theorems -/

/-- C1. Width/tab resolution shared by Print and Input: with a width `w`,
a value shorter than `w` is kept whole and flagged for a trailing tab (the
executed events are the text followed by a tab press); a value of length at
least `w` is cut to its first `min (len t) w` characters with no tab; with no
width the value is kept whole with no tab (executing as the bare text). -/
theorem width_tab_law :
    (∀ (t : List Char) (w : Nat), t.length < w →
      set_field t (some w) = (t, true) ∧
      Command.execute (.typeField (some t) true) =
        .ok [Event.typeText t, Event.pressKey ['t', 'a', 'b']])
    ∧ (∀ (t : List Char) (w : Nat), w ≤ t.length →
      set_field t (some w) = (t.take (min t.length w), false))
    ∧ (∀ t : List Char,
      set_field t none = (t, false) ∧
      Command.execute (.typeField (some t) false) = .ok [Event.typeText t]) := by
  refine ⟨fun t w h => ⟨?_, rfl⟩, fun t w h => ?_, fun t => ⟨rfl, rfl⟩⟩
  · simp [set_field, h]
  · rcases Nat.lt_or_ge w t.length with hlt | hge
    · simp [set_field, Nat.not_lt.mpr h, hlt, Nat.min_eq_right h]
    · have heq : t.length = w := Nat.le_antisymm hge h
      simp [set_field, heq, List.take_length]

/-- C1 witness: a 2-character text in a 5-wide slot types the text and a tab. -/
theorem width_tab_law_witness :
    set_field "hi".data (some 5) = ("hi".data, true) ∧
    Command.execute (.typeField (some "hi".data) true) =
      .ok [Event.typeText "hi".data, Event.pressKey ['t', 'a', 'b']] :=
  width_tab_law.1 "hi".data 5 (by decide)

/-- C2. The 4-key chord branch of `PressCommand.execute` accesses
`self.keys[4]` on a 4-element list: executing a 4-key Press raises IndexError
instead of issuing the chord, while (as the claim expects) 2-, 3- and 5-key
chords issue exactly the listed keys in order, once per repeat. -/
theorem press_four_key_chord_bug :
    pressExecute (.chord ["ctrl".data, "alt".data, "shift".data, "esc".data]) 1 =
      .error "IndexError"
    ∧ pressExecute (.chord ["ctrl".data, "shift".data, "esc".data]) 2 =
      .ok [Event.hotkey ["ctrl".data, "shift".data, "esc".data],
        Event.hotkey ["ctrl".data, "shift".data, "esc".data]]
    ∧ pressExecute (.chord ["a".data, "b".data, "c".data, "d".data, "e".data]) 1 =
      .ok [Event.hotkey ["a".data, "b".data, "c".data, "d".data, "e".data]] := by
  refine ⟨by decide, by decide, by decide⟩

/-- C4 counterexample: on the digit-free input `"."` the extractor does not
return absence — the accumulated string is `"."`, whose float conversion
raises ValueError. -/
theorem clean_number_dot_raises :
    clean_number "." = .error "ValueError" := by decide

/-- C3. For every input containing a digit, `clean_number` returns, without
error, exactly the number the spec describes: digits accumulated left to
right with the first dot kept and later dots dropped, an int when no dot
occurs and a float otherwise; with the spec's three examples
(`extract("12abc.5.6") = 12.56` float, `extract("007") = 7` int,
`extract("3.") = 3.0` float). -/
theorem numeric_extractor_correct :
    (∀ s : String, s.data.any Char.isDigit = true →
      clean_number s = .ok (some (extractSpec s)))
    ∧ clean_number "12abc.5.6" = .ok (some (.floatVal 1256 2))
    ∧ (PyNumber.floatVal 1256 2).toRat = 12.56
    ∧ clean_number "007" = .ok (some (.intVal 7))
    ∧ clean_number "3." = .ok (some (.floatVal 3 0))
    ∧ (PyNumber.floatVal 3 0).toRat = 3.0 := by
  refine ⟨?_, by decide, by norm_num [PyNumber.toRat], by decide, by decide,
    by norm_num [PyNumber.toRat]⟩
  intro s h
  by_cases hdot : '.' ∈ s.data
  · obtain ⟨E, hpreNoDot⟩ := dot_split s.data hdot
    have hscan := scanNumber_dot s.data hdot
    set pre := s.data.takeWhile (fun c => c ≠ '.') with hpredef
    set post := (s.data.dropWhile (fun c => c ≠ '.')).drop 1 with hpostdef
    have hdig_preD : ∀ x ∈ pre.filter Char.isDigit, x.isDigit = true :=
      fun x hx => (List.mem_filter.mp hx).2
    have hdig_postD : ∀ x ∈ post.filter Char.isDigit, x.isDigit = true :=
      fun x hx => (List.mem_filter.mp hx).2
    -- the three side conditions of the float conversion
    have hany : (pre.filter Char.isDigit ++ '.' :: post.filter Char.isDigit).any
        Char.isDigit = true := by
      obtain ⟨c, hcmem, hcd⟩ := List.any_eq_true.mp h
      rw [E] at hcmem
      rcases List.mem_append.mp hcmem with hcp | hcpost
      · exact List.any_eq_true.mpr ⟨c, List.mem_append.mpr
          (Or.inl (List.mem_filter.mpr ⟨hcp, hcd⟩)), hcd⟩
      · rcases List.mem_cons.mp hcpost with e | hcpost2
        · subst e; cases hcd
        · exact List.any_eq_true.mpr ⟨c, List.mem_append.mpr
            (Or.inr (List.mem_cons_of_mem _ (List.mem_filter.mpr ⟨hcpost2, hcd⟩))),
            hcd⟩
    have hall : ∀ x ∈ pre.filter Char.isDigit ++ '.' :: post.filter Char.isDigit,
        x.isDigit = true ∨ x = '.' := by
      intro x hx
      rcases List.mem_append.mp hx with hx1 | hx2
      · exact Or.inl (hdig_preD x hx1)
      · rcases List.mem_cons.mp hx2 with e | hx3
        · exact Or.inr e
        · exact Or.inl (hdig_postD x hx3)
    have hcount : (pre.filter Char.isDigit ++ '.' :: post.filter Char.isDigit).count
        '.' ≤ 1 := by
      have h1 : (pre.filter Char.isDigit).count '.' = 0 :=
        List.count_eq_zero.mpr (fun hm => digit_ne_dot _ (hdig_preD _ hm) rfl)
      have h2 : (post.filter Char.isDigit).count '.' = 0 :=
        List.count_eq_zero.mpr (fun hm => digit_ne_dot _ (hdig_postD _ hm) rfl)
      simp [List.count_append, List.count_cons, h1, h2]
    have hdd : ('.' : Char).isDigit = false := by decide
    -- the two payload components of the float conversion
    have hfilter : (pre.filter Char.isDigit ++ '.' :: post.filter Char.isDigit).filter
        Char.isDigit = (pre ++ post).filter Char.isDigit := by
      rw [List.filter_append, List.filter_append,
        List.filter_eq_self.mpr hdig_preD]
      congr 1
      rw [List.filter_cons]
      simp only [hdd, Bool.false_eq_true, if_false]
      exact List.filter_eq_self.mpr hdig_postD
    have hdrop : ((pre.filter Char.isDigit ++ '.' :: post.filter Char.isDigit).dropWhile
        (fun c => c ≠ '.')).drop 1 = post.filter Char.isDigit := by
      rw [dropWhile_append_all _ _ _
        (fun x hx => by simp [digit_ne_dot x (hdig_preD x hx)])]
      rw [List.dropWhile_cons]
      simp
    have hcountP : (((pre.filter Char.isDigit ++ '.' :: post.filter Char.isDigit).dropWhile
        (fun c => c ≠ '.')).drop 1).countP Char.isDigit = post.countP Char.isDigit := by
      rw [hdrop, List.countP_eq_length_filter, List.countP_eq_length_filter]
      congr 1
      exact List.filter_eq_self.mpr hdig_postD
    -- assemble
    have hallb : (pre.filter Char.isDigit ++ '.' :: post.filter Char.isDigit).all
        (fun c => decide (c.isDigit = true ∨ c = '.')) = true := by
      rw [List.all_eq_true]
      intro x hx
      exact decide_eq_true (hall x hx)
    have hne : pre.filter Char.isDigit ++ '.' :: post.filter Char.isDigit ≠ [] := by
      simp
    simp only [clean_number, cleanNumberList, hscan]
    rw [if_neg hne, if_neg (by decide : ¬ (true = false))]
    rw [pyFloatOfChars, if_pos (⟨hany, hallb, hcount⟩ :
      (pre.filter Char.isDigit ++ '.' :: post.filter Char.isDigit).any Char.isDigit = true
      ∧ (pre.filter Char.isDigit ++ '.' :: post.filter Char.isDigit).all
        (fun c => decide (c.isDigit = true ∨ c = '.')) = true
      ∧ (pre.filter Char.isDigit ++ '.' :: post.filter Char.isDigit).count '.' ≤ 1)]
    simp only [Except.map, extractSpec, if_pos hdot]
    rw [hfilter, hcountP]
  · have hfil : s.data.filter Char.isDigit ≠ [] := by
      obtain ⟨c, hcmem, hcd⟩ := List.any_eq_true.mp h
      intro hnil
      have := List.mem_filter.mpr ⟨hcmem, hcd⟩
      rw [hnil] at this
      cases this
    rw [clean_number, cleanNumberList, extractSpec]
    simp [scanNumber_no_dot s.data hdot, hfil, hdot]

/-- C3 witness at the input `"007"`. -/
theorem numeric_extractor_correct_witness :
    clean_number "007" = .ok (some (extractSpec "007")) :=
  numeric_extractor_correct.1 "007" (by decide)

/-- C4 (amended). On a digit-free input with no dot, `clean_number` returns
absence (`None`) without error; on a digit-free input containing a dot, the
accumulated string is `"."` and the float conversion raises ValueError. -/
theorem clean_number_no_digit :
    (∀ s : String, (∀ c ∈ s.data, c.isDigit = false) → '.' ∉ s.data →
      clean_number s = .ok none)
    ∧ (∀ s : String, (∀ c ∈ s.data, c.isDigit = false) → '.' ∈ s.data →
      clean_number s = .error "ValueError") := by
  constructor
  · intro s hnd hdot
    have hfil : s.data.filter Char.isDigit = [] := by
      rw [List.filter_eq_nil_iff]
      intro a ha
      simp [hnd a ha]
    rw [clean_number, cleanNumberList]
    simp [scanNumber_no_dot s.data hdot, hfil]
  · intro s hnd hdot
    obtain ⟨E, hpreNoDot⟩ := dot_split s.data hdot
    have hscan := scanNumber_dot s.data hdot
    have hfilpre : (s.data.takeWhile (fun c => c ≠ '.')).filter Char.isDigit = [] := by
      rw [List.filter_eq_nil_iff]
      intro a ha
      have : a ∈ s.data := by
        rw [E]; exact List.mem_append.mpr (Or.inl ha)
      simp [hnd a this]
    have hfilpost : ((s.data.dropWhile (fun c => c ≠ '.')).drop 1).filter
        Char.isDigit = [] := by
      rw [List.filter_eq_nil_iff]
      intro a ha
      have : a ∈ s.data := by
        rw [E]; exact List.mem_append.mpr (Or.inr (List.mem_cons_of_mem _ ha))
      simp [hnd a this]
    rw [hfilpre, hfilpost] at hscan
    rw [clean_number, cleanNumberList]
    simp only [hscan]
    decide

/-- C4 witness: `"abc"` has no digit and no dot, so the result is absence. -/
theorem clean_number_no_digit_witness :
    clean_number "abc" = .ok none :=
  clean_number_no_digit.1 "abc" (by decide) (by decide)

/-- C7 counterexample: a print line whose action part is empty (the remainder
starts with a comma) raises IndexError instead of degrading to a no-op, and a
pause line whose duration is a digitless dot raises ValueError. -/
theorem parse_empty_action_raises :
    interpretLine "print ,5" = .error "IndexError"
    ∧ interpretLine "pause ." = .error "ValueError" :=
  ⟨by decide, by decide⟩

/-- C7 (amended). Classification never raises and comment, blank and
unrecognized lines parse to no-ops; a print/press/input line parses without
error exactly when its trimmed action slot is nonempty and its attribute
slot, when present, does not make `clean_number` raise; a pause line parses
without error exactly when its duration text does not make `clean_number`
raise. -/
theorem parse_degradation :
    (∀ line : List Char, classify line = .comment ∨ classify line = .empty →
      interpretLineList line = .ok none)
    ∧ (∀ line : List Char,
      classify line = .print ∨ classify line = .press ∨ classify line = .input →
      ((∃ i, interpretLineList line = .ok (some i)) ↔
        (actionCandidate line ≠ [] ∧
         ¬ ∃ a e, attrCandidate line = some a ∧ cleanNumberList a = .error e)))
    ∧ (∀ line : List Char, classify line = .pause →
      ((∃ i, interpretLineList line = .ok (some i)) ↔
        ¬ ∃ e, cleanNumberList (pauseCandidate line) = .error e)) := by
  have hwrap : ∀ (x : Except String Instr),
      (∃ i, x.map some = .ok (some i)) ↔ (∃ i, x = .ok i) := by
    intro x
    cases x <;> simp [Except.map]
  refine ⟨?_, ?_, ?_⟩
  · intro line h
    rcases h with h | h <;> simp [interpretLineList, h]
  · intro line h
    have hmain : (∃ i, interpretLineList line = .ok (some i)) ↔
        (∃ p, newCommandParts (pyStrip (line.drop 5)) = .ok p) := by
      rcases h with h | h | h
      · rw [interpretLineList, h, hwrap, interpretPrint_eq, exists_map_ok]
      · rw [interpretLineList, h, hwrap, interpretPress_eq, exists_map_ok]
      · rw [interpretLineList, h, hwrap, interpretInput_eq, exists_map_ok]
    rw [hmain, newCommandParts_ok_iff]
    exact Iff.rfl
  · intro line h
    rw [interpretLineList, h, hwrap, interpretPause_eq]
    by_cases hc : pauseCandidate line = []
    · rw [if_pos hc, hc]
      constructor
      · rintro - ⟨e, he⟩
        rw [show cleanNumberList [] = .ok none from rfl] at he
        cases he
      · intro _
        exact ⟨.pause (some (.intVal 1)), rfl⟩
    · rw [if_neg hc]
      cases hcn : cleanNumberList (pauseCandidate line) with
      | ok n =>
        constructor
        · rintro - ⟨e, he⟩
          cases he
        · intro _
          exact ⟨.pause n, by simp [Except.map]⟩
      | error e =>
        constructor
        · rintro ⟨i, hi⟩
          simp [Except.map] at hi
        · intro h2
          exact absurd ⟨e, rfl⟩ h2

/-- C7 witness: a comment line parses to the no-op `None`. -/
theorem parse_degradation_witness :
    interpretLineList "# note".data = .ok none :=
  parse_degradation.1 "# note".data (Or.inl (by decide))

/-- C8 counterexample: resolving an Input instruction with a width attribute
against a record missing the field raises TypeError (`len(None)`), rather
than treating the value as empty. -/
theorem input_missing_field_width_raises :
    inputCommandMake "name".data (some (.intVal 7)) [] = .error "TypeError" := by
  decide

/-- C8 (amended). A missing Input field resolves to Python `None`: with a
width attribute present, construction raises TypeError at `len(None)`; with
no width attribute, construction succeeds with an absent value and no tab,
and executing the command fails at `typewrite(None)` instead of typing. -/
theorem input_missing_field_behavior :
    (∀ (field : List Char) (record : Record) (w : PyNumber),
      dictGet record field = none →
      inputCommandMake field (some w) record = .error "TypeError")
    ∧ (∀ (field : List Char) (record : Record),
      dictGet record field = none →
      inputCommandMake field none record = .ok (.typeField none false)
      ∧ Command.execute (.typeField none false) = .error "TypeError") := by
  constructor
  · intro field record w h
    simp [inputCommandMake, typeFieldInit, h]
  · intro field record h
    exact ⟨by simp [inputCommandMake, typeFieldInit, h], rfl⟩

/-- C8 witness: the empty record is missing the field `name`. -/
theorem input_missing_field_behavior_witness :
    inputCommandMake "name".data (some (.intVal 9)) [] = .error "TypeError" :=
  input_missing_field_behavior.1 "name".data [] (.intVal 9) (by decide)

/-- C5. Keyword classification needs the trimmed, lowercased line to be
strictly longer than 5 characters; `"print"` (length 5) is Empty while
`"printx"` is Print; each keyword class holds exactly when the first five
characters of the trimmed lowercased line are that keyword. -/
theorem classifier_boundary :
    classify "print".data = .empty
    ∧ classify "printx".data = .print
    ∧ (∀ line : List Char, (pyStrip (pyLower line)).length ≤ 5 →
        classify line = .empty)
    ∧ (∀ line : List Char, classify line = .print ↔
        5 < (pyStrip (pyLower line)).length ∧
          (pyStrip (pyLower line)).take 5 = "print".data)
    ∧ (∀ line : List Char, classify line = .press ↔
        5 < (pyStrip (pyLower line)).length ∧
          (pyStrip (pyLower line)).take 5 = "press".data)
    ∧ (∀ line : List Char, classify line = .pause ↔
        5 < (pyStrip (pyLower line)).length ∧
          (pyStrip (pyLower line)).take 5 = "pause".data)
    ∧ (∀ line : List Char, classify line = .input ↔
        5 < (pyStrip (pyLower line)).length ∧
          (pyStrip (pyLower line)).take 5 = "input".data) := by
  have hshort : ∀ line : List Char, (pyStrip (pyLower line)).length ≤ 5 →
      classify line = .empty := by
    intro line h
    have h5 : ¬ 5 < (pyStrip (pyLower line)).length := by omega
    simp [classify, lineStartOf, firstCharOf, h5, printKW, pressKW, pauseKW, inputKW]
  have hkw : ∀ line : List Char,
      (classify line = .print ↔ 5 < (pyStrip (pyLower line)).length ∧
        (pyStrip (pyLower line)).take 5 = printKW)
      ∧ (classify line = .press ↔ 5 < (pyStrip (pyLower line)).length ∧
        (pyStrip (pyLower line)).take 5 = pressKW)
      ∧ (classify line = .pause ↔ 5 < (pyStrip (pyLower line)).length ∧
        (pyStrip (pyLower line)).take 5 = pauseKW)
      ∧ (classify line = .input ↔ 5 < (pyStrip (pyLower line)).length ∧
        (pyStrip (pyLower line)).take 5 = inputKW) := by
    intro line
    by_cases h5 : 5 < (pyStrip (pyLower line)).length
    · have hstart : lineStartOf line = (pyStrip (pyLower line)).take 5 := by
        simp [lineStartOf, h5]
      simp only [classify, hstart, h5, true_and]
      split_ifs with h1 h2 h3 h4 h6 <;> simp_all <;> decide
    · have h := hshort line (by omega)
      rw [h]
      constructor
      · constructor
        · intro hc; cases hc
        · rintro ⟨h5', _⟩; exact absurd h5' h5
      constructor
      · constructor
        · intro hc; cases hc
        · rintro ⟨h5', _⟩; exact absurd h5' h5
      constructor
      · constructor
        · intro hc; cases hc
        · rintro ⟨h5', _⟩; exact absurd h5' h5
      · constructor
        · intro hc; cases hc
        · rintro ⟨h5', _⟩; exact absurd h5' h5
  exact ⟨by decide, by decide, hshort,
    fun line => (hkw line).1, fun line => (hkw line).2.1,
    fun line => (hkw line).2.2.1, fun line => (hkw line).2.2.2⟩

/-- C5 witness: the short line `"#ab"` (length at most 5) classifies Empty,
and `"printx"` satisfies the Print iff. -/
theorem classifier_boundary_witness :
    classify "#ab".data = .empty ∧ classify "printx".data = .print :=
  ⟨classifier_boundary.2.2.1 "#ab".data (by decide),
    (classifier_boundary.2.2.2.1 "printx".data).mpr ⟨by decide, by decide⟩⟩

/-- C6. A successfully built ProcedureSet decomposes as one pass per record,
in stored record order (all of record i before record i+1), each pass
resolving the non-no-op instructions in source line order; no-op (`None`)
rows contribute nothing; the total count is records x non-no-op instructions
(one pass when there is no data table). -/
theorem procedure_expansion :
    (∀ (procedure : List (Option Instr)) (rows : List (List Char × Record))
      (pset : List Command),
      buildProcedureSet procedure (some rows) = .ok pset →
      ∃ passes : List (List Command),
        passes.length = rows.length
        ∧ pset = passes.flatten
        ∧ (∀ i (hi : i < rows.length) (hp : i < passes.length),
            buildPass procedure (some ((rows.get ⟨i, hi⟩).2)) = .ok (passes.get ⟨i, hp⟩))
        ∧ (∀ p ∈ passes, p.length = (procedure.filterMap id).length)
        ∧ pset.length = rows.length * (procedure.filterMap id).length)
    ∧ (∀ (procedure : List (Option Instr)) (pset : List Command),
      buildProcedureSet procedure none = .ok pset →
      buildPass procedure none = .ok pset
      ∧ pset.length = 1 * (procedure.filterMap id).length)
    ∧ (∀ (procedure : List (Option Instr)) (r : Option Record),
      buildPass procedure r = buildPass ((procedure.filterMap id).map some) r) := by
  refine ⟨?_, ?_, buildPass_skip_none⟩
  · intro procedure rows pset h
    obtain ⟨passes, hlen, heq, helem⟩ := buildFold procedure rows [] pset h
    have heq' : pset = passes.flatten := by simpa using heq
    have hplen : ∀ p ∈ passes, p.length = (procedure.filterMap id).length := by
      intro p hp
      obtain ⟨⟨i, hip⟩, hgi⟩ := List.mem_iff_get.mp hp
      have hi : i < rows.length := by rw [← hlen]; exact hip
      exact hgi ▸ buildPass_length procedure _ _ (helem i hi hip)
    refine ⟨passes, hlen, heq', helem, hplen, ?_⟩
    rw [heq', List.length_flatten, sum_const_lengths _ passes hplen, hlen]
  · intro procedure pset h
    have h' : buildPass procedure none = .ok pset := h
    exact ⟨h', by simpa using buildPass_length procedure none pset h'⟩

/-- C6 witness: two instructions (one of them a no-op) against one record
build exactly one action. -/
theorem procedure_expansion_witness :
    ∃ passes : List (List Command),
      passes.length = ([("k".data, ([] : Record))] : List (List Char × Record)).length
      ∧ ([Command.typeField (some "a".data) false] : List Command) = passes.flatten
      ∧ (∀ i (hi : i < ([("k".data, ([] : Record))] :
            List (List Char × Record)).length) (hp : i < passes.length),
          buildPass [some (.print "a".data none), none]
            (some ((([("k".data, ([] : Record))] :
              List (List Char × Record)).get ⟨i, hi⟩).2)) = .ok (passes.get ⟨i, hp⟩))
      ∧ (∀ p ∈ passes, p.length =
          (([some (.print "a".data none), none] :
            List (Option Instr)).filterMap id).length)
      ∧ ([Command.typeField (some "a".data) false] : List Command).length =
          ([("k".data, ([] : Record))] : List (List Char × Record)).length *
          (([some (.print "a".data none), none] :
            List (Option Instr)).filterMap id).length :=
  procedure_expansion.1 [some (.print "a".data none), none] [("k".data, [])]
    [Command.typeField (some "a".data) false] (by decide)

/-- C9. For a table whose header row has arity N and whose data rows all have
arity N (with distinct headers and distinct keys, as a mapping requires), the
loader succeeds and maps each row's column-0 value to a record sending
`H[j]` to `R[j]` for every column `1 ≤ j < N`. -/
theorem data_table_keying :
    ∀ (headers : List String) (rows : List (List String)),
      0 < headers.length →
      (∀ r ∈ rows, r.length = headers.length) →
      headers.Nodup →
      (rows.map (fun r => r.head?)).Nodup →
      ∃ d, dataFromList (headers :: rows) = .ok d ∧
        ∀ i (hi : i < rows.length),
          ∃ key record, (rows.get ⟨i, hi⟩).head? = some key ∧
            dictGet d key = some record ∧
            ∀ j (hj : j < headers.length) (hjr : j < (rows.get ⟨i, hi⟩).length),
              1 ≤ j → dictGet record (headers.get ⟨j, hj⟩) =
                some ((rows.get ⟨i, hi⟩).get ⟨j, hjr⟩) := by
  intro headers rows h0 hlen hnd hknd
  obtain ⟨dfin, hfold, hpres, hrows⟩ := tableFold headers hnd h0 rows [] hlen
  have h01 : pyGet (headers :: rows) 0 = .ok headers := rfl
  refine ⟨dfin, ?_, ?_⟩
  · simp only [dataFromList, bind, Except.bind, h01, List.drop_succ_cons,
      List.drop_zero]
    exact hfold
  · intro i hi
    apply hrows i hi
    intro i' hi' hlt heq
    have hp : List.Pairwise (fun r s : List String => r.head? ≠ s.head?) rows :=
      List.pairwise_map.mp hknd
    have := (List.pairwise_iff_get.mp hp) ⟨i, hi⟩ ⟨i', hi'⟩ hlt
    exact this heq.symm

/-- C9 witness: headers `[id, name]` and row `[1, Alice]` give a mapping
whose record for key `1` sends `name` to `Alice`. -/
theorem data_table_keying_witness :
    ∃ d, dataFromList [["id", "name"], ["1", "Alice"]] = .ok d ∧
      ∀ i (hi : i < ([["1", "Alice"]] : List (List String)).length),
        ∃ key record,
          (([["1", "Alice"]] : List (List String)).get ⟨i, hi⟩).head? = some key ∧
          dictGet d key = some record ∧
          ∀ j (hj : j < (["id", "name"] : List String).length)
            (hjr : j < (([["1", "Alice"]] : List (List String)).get ⟨i, hi⟩).length),
            1 ≤ j → dictGet record ((["id", "name"] : List String).get ⟨j, hj⟩) =
              some ((([["1", "Alice"]] : List (List String)).get ⟨i, hi⟩).get ⟨j, hjr⟩) :=
  data_table_keying ["id", "name"] [["1", "Alice"]] (by decide)
    (by intro r hr; simp at hr; rw [hr]; rfl) (by decide) (by decide)

/-- C10. With no bound data, the factory resolves every `input` instruction
to the no-op `UnknownCommand`, whose execution emits no event and no error. -/
theorem input_without_data_is_noop :
    ∀ (field : List Char) (w : Option PyNumber),
      commandFactory (.input field w) none = .ok Command.unknown
      ∧ Command.execute Command.unknown = .ok [] :=
  fun _ _ => ⟨rfl, rfl⟩

/-- C10 witness at a concrete field and width. -/
theorem input_without_data_is_noop_witness :
    commandFactory (.input "name".data (some (.intVal 3))) none = .ok Command.unknown
    ∧ Command.execute Command.unknown = .ok [] :=
  input_without_data_is_noop "name".data (some (.intVal 3))

end Pynputter
